import Mathlib

/-!
Shallow embedding of `kube-runtime/src/reflector/store.rs`.

The store is a shared map from `ObjectRef` keys to reference-counted
resource snapshots, written to by a single `Writer` via
`apply_watcher_event` and read through `Store` handles.  Since the Rust
code shares the backing map between the writer and all readers, the map
is modelled as explicit state (`Cache K`), and the `Writer`'s readiness
machinery (`DelayedInit`) as an explicit gate state.  `AHashMap` is
modelled extensionally as an association list with key-unique insert.
-/

/-- Object key: resource type descriptor, name, optional namespace
(`ObjectRef` in the Rust source; the dynamic type supplied by the writer
is baked into the key by `ObjectRef::from_obj_with`). -/
structure ObjectRef where
  dyntype : String
  name : String
  ns : Option String
deriving DecidableEq, Repr

/-- The fallback key used by `Store::get`: same key with namespace cleared. -/
def clusterOf (k : ObjectRef) : ObjectRef :=
  ⟨k.dyntype, k.name, none⟩

/-- The backing map `AHashMap<ObjectRef<K>, Arc<K>>`, modelled
extensionally as an association list. -/
abbrev Cache (K : Type) := List (ObjectRef × K)

/-- `HashMap::get`: the value stored under an exactly-equal key. -/
def mapGet {K : Type} (k : ObjectRef) : Cache K → Option K
  | [] => none
  | (k', v) :: rest => if k' = k then some v else mapGet k rest

/-- `HashMap::remove`: drop the entry under `k` (extensionally: all
entries whose key equals `k`). -/
def mapRemove {K : Type} (k : ObjectRef) : Cache K → Cache K
  | [] => []
  | (k', v) :: rest =>
    if k' = k then mapRemove k rest else (k', v) :: mapRemove k rest

/-- `HashMap::insert`: bind `k` to `v`, replacing any previous entry. -/
def mapInsert {K : Type} (k : ObjectRef) (v : K) (m : Cache K) : Cache K :=
  (k, v) :: mapRemove k m

/-- `watcher::Event`: the three watch event variants consumed by
`Writer::apply_watcher_event`. -/
inductive Event (K : Type) where
  | applied (obj : K)
  | deleted (obj : K)
  | restarted (objs : List K)

/-- The map built by the `Restarted` arm: collect the listed objects into
a fresh map, inserting in list order (later duplicates overwrite). -/
def restartMap {K : Type} (keyOf : K → ObjectRef) (objs : List K) : Cache K :=
  objs.foldl (fun m o => mapInsert (keyOf o) o m) []

/-- State of the one-shot readiness gate (`DelayedInit`): not yet
initialized, initialized, or abandoned by a dropped initializer. -/
inductive GateState where
  | unset
  | set
  | abandoned
deriving DecidableEq, Repr

/-- `delayed_init::InitDropped`: the initializer was dropped before init. -/
structure InitDropped where
deriving DecidableEq, Repr

/-- `WriterDropped`: the error returned by `Store::wait_until_ready` when
the writer was dropped before the store became ready. -/
structure WriterDropped where
  cause : InitDropped
deriving DecidableEq, Repr

/-- The writer plus the state it shares with its readers: the backing map,
whether the writer still holds the readiness initializer (`ready_tx`),
and the gate state observed by readers (`ready_rx`). -/
structure WriterState (K : Type) where
  store : Cache K
  readyTx : Bool
  gate : GateState

/-- `Writer::new`: empty map, initializer held, gate unset. -/
def writerNew (K : Type) : WriterState K :=
  ⟨[], true, GateState.unset⟩

/-- Effect of one watch event on the backing map, from the `match` in
`Writer::apply_watcher_event`. -/
def applyEventMap {K : Type} (keyOf : K → ObjectRef) :
    Event K → Cache K → Cache K
  | Event.applied o, m => mapInsert (keyOf o) o m
  | Event.deleted o, m => mapRemove (keyOf o) m
  | Event.restarted objs, _ => restartMap keyOf objs

/-- `Writer::apply_watcher_event`: mutate the map per the event, then take
the initializer if still held and set the gate ("mark as ready after the
first event"). -/
def applyWatcherEvent {K : Type} (keyOf : K → ObjectRef) (e : Event K)
    (w : WriterState K) : WriterState K :=
  ⟨applyEventMap keyOf e w.store, false,
    if w.readyTx then GateState.set else w.gate⟩

/-- Dropping the writer: a still-held initializer is dropped without
init, abandoning the gate; otherwise the gate keeps its value. -/
def dropWriter {K : Type} (w : WriterState K) : GateState :=
  if w.readyTx then GateState.abandoned else w.gate

/-- Eventual outcome of `Store::wait_until_ready` as a function of the
gate: `none` while still pending, otherwise the resolved result. -/
def waitUntilReady : GateState → Option (Except WriterDropped Unit)
  | GateState.unset => none
  | GateState.set => some (Except.ok ())
  | GateState.abandoned => some (Except.error ⟨⟨⟩⟩)

/-- `Store::get`: exact lookup, then retry with the namespace erased in
case the object is cluster-scoped. -/
def storeGet {K : Type} (k : ObjectRef) (m : Cache K) : Option K :=
  match mapGet k m with
  | some v => some v
  | none => mapGet (clusterOf k) m

/-- `Store::state`: all current values. -/
def storeState {K : Type} (m : Cache K) : List K :=
  m.map Prod.snd

/-- `Store::find`: first value satisfying the predicate. -/
def storeFind {K : Type} (p : K → Bool) (m : Cache K) : Option K :=
  (m.map Prod.snd).find? p

/-- `Store::len`: number of entries. -/
def storeLen {K : Type} (m : Cache K) : Nat :=
  m.length

/-- `Store::is_empty`: whether the map has no entries. -/
def storeIsEmpty {K : Type} (m : Cache K) : Bool :=
  m.isEmpty

/-- Concrete resource for witnesses, shaped like the `ConfigMap`s in the
module tests: a name, an optional namespace, an optional generation. -/
structure KObj where
  name : String
  ns : Option String
  generation : Option Int
deriving DecidableEq, Repr

/-- `ObjectRef::from_obj_with` for `KObj` at a fixed dynamic type. -/
def keyObj (o : KObj) : ObjectRef :=
  ⟨"v1.ConfigMap", o.name, o.ns⟩

-- Basic map lemmas shared by the claim proofs.

theorem mapGet_insert_self {K : Type} (k : ObjectRef) (v : K) (m : Cache K) :
    mapGet k (mapInsert k v m) = some v := by
  simp [mapInsert, mapGet]

theorem mapGet_remove_self {K : Type} (k : ObjectRef) (m : Cache K) :
    mapGet k (mapRemove k m) = none := by
  induction m with
  | nil => rfl
  | cons e rest ih =>
    obtain ⟨k', v⟩ := e
    by_cases h : k' = k
    · simp [mapRemove, h, ih]
    · simp [mapRemove, mapGet, h, ih]

theorem mapGet_remove_ne {K : Type} (k j : ObjectRef) (m : Cache K)
    (h : j ≠ k) : mapGet j (mapRemove k m) = mapGet j m := by
  induction m with
  | nil => rfl
  | cons e rest ih =>
    obtain ⟨k', v⟩ := e
    by_cases hk : k' = k
    · subst hk
      have hkj : k' ≠ j := fun hj => h (hj ▸ rfl)
      simp [mapRemove, mapGet, hkj, ih]
    · by_cases hj : k' = j
      · subst hj
        simp [mapRemove, hk, mapGet]
      · simp [mapRemove, hk, mapGet, hj, ih]

theorem mapGet_none_iff {K : Type} (k : ObjectRef) (m : Cache K) :
    mapGet k m = none ↔ k ∉ m.map Prod.fst := by
  induction m with
  | nil => simp [mapGet]
  | cons e rest ih =>
    obtain ⟨k', v⟩ := e
    by_cases h : k' = k
    · simp [mapGet, h]
    · simp [mapGet, h, ih]
      intro hk
      exact fun hkk => h hkk.symm

theorem mapRemove_of_get_none {K : Type} (k : ObjectRef) (m : Cache K)
    (h : mapGet k m = none) : mapRemove k m = m := by
  induction m with
  | nil => rfl
  | cons e rest ih =>
    obtain ⟨k', v⟩ := e
    by_cases hk : k' = k
    · simp [mapGet, hk] at h
    · simp [mapGet, hk] at h
      simp [mapRemove, hk, ih h]

theorem mapGet_insert_ne {K : Type} (k j : ObjectRef) (v : K) (m : Cache K)
    (h : j ≠ k) : mapGet j (mapInsert k v m) = mapGet j m := by
  have hkj : k ≠ j := fun hk => h hk.symm
  simp [mapInsert, mapGet, hkj, mapGet_remove_ne k j m h]

theorem mapRemove_cons_self {K : Type} (k : ObjectRef) (v : K)
    (rest : Cache K) : mapRemove k ((k, v) :: rest) = mapRemove k rest := by
  simp [mapRemove]

theorem mapRemove_cons_ne {K : Type} (k k' : ObjectRef) (v : K)
    (rest : Cache K) (h : k' ≠ k) :
    mapRemove k ((k', v) :: rest) = (k', v) :: mapRemove k rest := by
  simp [mapRemove, h]

theorem mapRemove_sublist {K : Type} (k : ObjectRef) (m : Cache K) :
    List.Sublist (mapRemove k m) m := by
  induction m with
  | nil => exact List.Sublist.refl _
  | cons e rest ih =>
    obtain ⟨k', v⟩ := e
    by_cases hk : k' = k
    · subst hk
      rw [mapRemove_cons_self]
      exact List.Sublist.cons (k', v) ih
    · rw [mapRemove_cons_ne k k' v rest hk]
      exact List.Sublist.cons₂ (k', v) ih

theorem keys_nodup_remove {K : Type} (k : ObjectRef) (m : Cache K)
    (h : (m.map Prod.fst).Nodup) : ((mapRemove k m).map Prod.fst).Nodup :=
  List.Nodup.sublist ((mapRemove_sublist k m).map Prod.fst) h

theorem keys_nodup_insert {K : Type} (k : ObjectRef) (v : K) (m : Cache K)
    (h : (m.map Prod.fst).Nodup) :
    ((mapInsert k v m).map Prod.fst).Nodup := by
  have hout : k ∉ (mapRemove k m).map Prod.fst :=
    (mapGet_none_iff k (mapRemove k m)).mp (mapGet_remove_self k m)
  simpa [mapInsert] using List.nodup_cons.mpr ⟨hout, keys_nodup_remove k m h⟩

theorem mem_keys_remove {K : Type} (k j : ObjectRef) (m : Cache K) :
    j ∈ (mapRemove k m).map Prod.fst ↔ j ∈ m.map Prod.fst ∧ j ≠ k := by
  induction m with
  | nil => simp [mapRemove]
  | cons e rest ih =>
    obtain ⟨k', v⟩ := e
    by_cases hk : k' = k
    · subst hk
      rw [mapRemove_cons_self, ih]
      simp only [List.map_cons, List.mem_cons]
      constructor
      · exact fun hp => ⟨Or.inr hp.1, hp.2⟩
      · rintro ⟨h1 | h1, h2⟩
        · exact absurd h1 h2
        · exact ⟨h1, h2⟩
    · rw [mapRemove_cons_ne k k' v rest hk]
      simp only [List.map_cons, List.mem_cons, ih]
      constructor
      · rintro (h | ⟨h1, h2⟩)
        · exact ⟨Or.inl h, by rw [h]; exact hk⟩
        · exact ⟨Or.inr h1, h2⟩
      · rintro ⟨h | h, h2⟩
        · exact Or.inl h
        · exact Or.inr ⟨h, h2⟩

theorem restart_append {K : Type} (keyOf : K → ObjectRef) (L : List K)
    (x : K) :
    restartMap keyOf (L ++ [x]) = mapInsert (keyOf x) x (restartMap keyOf L) := by
  simp [restartMap, List.foldl_append]

theorem keys_nodup_restart {K : Type} (keyOf : K → ObjectRef) (L : List K) :
    ((restartMap keyOf L).map Prod.fst).Nodup := by
  induction L using List.reverseRecOn with
  | nil => simp [restartMap]
  | append_singleton L x ih =>
    rw [restart_append]
    exact keys_nodup_insert _ _ _ ih

theorem mem_keys_restart {K : Type} (keyOf : K → ObjectRef) (L : List K)
    (j : ObjectRef) :
    j ∈ (restartMap keyOf L).map Prod.fst ↔ j ∈ L.map keyOf := by
  induction L using List.reverseRecOn with
  | nil => simp [restartMap]
  | append_singleton L x ih =>
    rw [restart_append]
    by_cases hj : j = keyOf x
    · simp [mapInsert, hj]
    · simp only [mapInsert, List.map_cons, List.mem_cons]
      rw [mem_keys_remove, ih]
      simp only [List.map_append, List.map_cons, List.map_nil,
        List.mem_append, List.mem_singleton, List.mem_cons]
      constructor
      · rintro (h | ⟨h1, h2⟩)
        · exact absurd h hj
        · exact Or.inl h1
      · rintro (h | h)
        · exact Or.inr ⟨h, fun hc => hj (by simp [hc])⟩
        · simp at h
          exact absurd h.symm (fun hc => hj hc.symm)

theorem mapGet_restart {K : Type} (keyOf : K → ObjectRef) (L : List K)
    (j : ObjectRef) :
    mapGet j (restartMap keyOf L)
      = List.find? (fun o => decide (keyOf o = j)) L.reverse := by
  induction L using List.reverseRecOn with
  | nil => simp [restartMap, mapGet]
  | append_singleton L x ih =>
    rw [restart_append, List.reverse_append]
    by_cases hj : keyOf x = j
    · subst hj
      simp [mapGet_insert_self, List.find?]
    · rw [mapGet_insert_ne _ _ _ _ (fun h => hj h.symm), ih]
      simp [List.find?, hj]

theorem entries_restart {K : Type} (keyOf : K → ObjectRef) (L : List K) :
    ∀ e ∈ restartMap keyOf L, e.1 = keyOf e.2 ∧ e.2 ∈ L := by
  induction L using List.reverseRecOn with
  | nil => simp [restartMap]
  | append_singleton L x ih =>
    rw [restart_append]
    intro e he
    rcases List.mem_cons.mp (by simpa [mapInsert] using he) with h | h
    · subst h
      simp
    · have := ih e ((mapRemove_sublist _ _).subset h)
      exact ⟨this.1, by simp [this.2]⟩

theorem mapGet_restart_of_nodup {K : Type} (keyOf : K → ObjectRef)
    (L : List K) (hd : (L.map keyOf).Nodup) (x : K) (hx : x ∈ L) :
    mapGet (keyOf x) (restartMap keyOf L) = some x := by
  rw [mapGet_restart]
  have hsome : (List.find? (fun o => decide (keyOf o = keyOf x)) L.reverse).isSome := by
    rw [List.find?_isSome]
    exact ⟨x, List.mem_reverse.mpr hx, by simp⟩
  obtain ⟨o, ho⟩ := Option.isSome_iff_exists.mp hsome
  rw [ho]
  have hmem : o ∈ L := List.mem_reverse.mp (List.mem_of_find?_eq_some ho)
  have hkey : keyOf o = keyOf x := by simpa using List.find?_some ho
  exact congrArg some (List.inj_on_of_nodup_map hd hmem hx hkey)

theorem length_insert_of_none {K : Type} (k : ObjectRef) (v : K)
    (m : Cache K) (h : mapGet k m = none) :
    (mapInsert k v m).length = m.length + 1 := by
  rw [mapInsert, mapRemove_of_get_none k m h]
  rfl

theorem length_remove_of_some {K : Type} (k : ObjectRef) (v₀ : K)
    (m : Cache K) (hn : (m.map Prod.fst).Nodup)
    (h : mapGet k m = some v₀) : (mapRemove k m).length + 1 = m.length := by
  induction m with
  | nil => simp [mapGet] at h
  | cons e rest ih =>
    obtain ⟨k', v'⟩ := e
    by_cases hk : k' = k
    · subst hk
      rw [mapRemove_cons_self]
      have hout : k' ∉ rest.map Prod.fst := (List.nodup_cons.mp hn).1
      rw [mapRemove_of_get_none k' rest ((mapGet_none_iff k' rest).mpr hout)]
      rfl
    · simp only [mapGet, if_neg hk] at h
      rw [mapRemove_cons_ne k k' v' rest hk]
      simp only [List.length_cons]
      rw [ih (List.nodup_cons.mp (by simpa using hn)).2 h]

theorem length_insert_of_some {K : Type} (k : ObjectRef) (v v₀ : K)
    (m : Cache K) (hn : (m.map Prod.fst).Nodup)
    (h : mapGet k m = some v₀) : (mapInsert k v m).length = m.length := by
  rw [mapInsert, List.length_cons, length_remove_of_some k v₀ m hn h]

theorem length_restart_eq_card {K : Type} (keyOf : K → ObjectRef)
    (L : List K) :
    (restartMap keyOf L).length = ((L.map keyOf).toFinset).card := by
  have h1 : (restartMap keyOf L).length
      = ((restartMap keyOf L).map Prod.fst).length := by
    rw [List.length_map]
  have h2 : ((restartMap keyOf L).map Prod.fst).toFinset.card
      = ((restartMap keyOf L).map Prod.fst).length :=
    List.toFinset_card_of_nodup (keys_nodup_restart keyOf L)
  have h3 : ((restartMap keyOf L).map Prod.fst).toFinset
      = (L.map keyOf).toFinset := by
    apply Finset.ext
    intro j
    simp only [List.mem_toFinset]
    exact mem_keys_restart keyOf L j
  rw [h1, ← h2, h3]

theorem length_restart_of_nodup {K : Type} (keyOf : K → ObjectRef)
    (L : List K) (hd : (L.map keyOf).Nodup) :
    (restartMap keyOf L).length = L.length := by
  rw [length_restart_eq_card, List.toFinset_card_of_nodup hd, List.length_map]

theorem length_restart_lt_of_dup {K : Type} (keyOf : K → ObjectRef)
    (L : List K) (hdup : ¬ (L.map keyOf).Nodup) :
    (restartMap keyOf L).length < L.length := by
  rw [length_restart_eq_card, List.card_toFinset]
  have hle : (L.map keyOf).dedup.length ≤ (L.map keyOf).length :=
    (List.dedup_sublist (L.map keyOf)).length_le
  have hne : (L.map keyOf).dedup.length ≠ (L.map keyOf).length := by
    intro heq
    exact hdup (List.Sublist.eq_of_length (List.dedup_sublist _) heq ▸
      List.nodup_dedup (L.map keyOf))
  calc (L.map keyOf).dedup.length
      < (L.map keyOf).length := Nat.lt_of_le_of_ne hle hne
    _ = L.length := List.length_map L keyOf

theorem find?_of_filter_singleton {K : Type} (p : K → Bool) (l : List K)
    (v : K) (h : l.filter p = [v]) : l.find? p = some v := by
  induction l with
  | nil => simp at h
  | cons a l ih =>
    by_cases hp : p a
    · rw [List.filter_cons_of_pos hp] at h
      have hav : a = v := (List.cons_eq_cons.mp h).1
      rw [List.find?_cons_of_pos l hp, hav]
    · rw [List.filter_cons_of_neg (by simpa using hp)] at h
      rw [List.find?_cons_of_neg l (by simpa using hp)]
      exact ih h

theorem find?_of_filter_nil {K : Type} (p : K → Bool) (l : List K)
    (h : l.filter p = []) : l.find? p = none := by
  rw [List.find?_eq_none]
  intro x hx
  rw [List.filter_eq_nil_iff] at h
  exact h x hx

-- Concrete objects, mirroring the ConfigMaps used in the module tests.

/-- Cluster-scoped object named "obj". -/
def oCluster : KObj := ⟨"obj", none, none⟩

/-- Namespaced object "obj" in namespace "ns". -/
def oNsd : KObj := ⟨"obj", some "ns", none⟩

/-- Object "obj" with generation 1. -/
def oGenOne : KObj := ⟨"obj", none, some 1⟩

/-- Object "obj" with generation 2 (same key as `oGenOne`). -/
def oGenTwo : KObj := ⟨"obj", none, some 2⟩

/-- Object "obj1" with generation 1234, as in the `find_element_in_store`
test. -/
def oTarget : KObj := ⟨"obj1", none, some 1234⟩

/-- The predicate of the `find_element_in_store` test: generation 1234. -/
def pGen (o : KObj) : Bool :=
  decide (o.generation = some 1234)

/-- C1: after the writer applies `Applied(R)`, `get` at R's computed key
returns R on any reader of the shared backing map; the upsert installs R
unconditionally, replacing whatever entry the key had before (the prior
map contents `w` are arbitrary). -/
theorem C1_upsert_then_get {K : Type} (keyOf : K → ObjectRef) (R : K)
    (w : WriterState K) :
    storeGet (keyOf R) (applyWatcherEvent keyOf (Event.applied R) w).store
      = some R
    ∧ mapGet (keyOf R) (applyWatcherEvent keyOf (Event.applied R) w).store
      = some R := by
  have hm : mapGet (keyOf R)
      (applyWatcherEvent keyOf (Event.applied R) w).store = some R :=
    mapGet_insert_self (keyOf R) R w.store
  exact ⟨by simp [storeGet, hm], hm⟩

/-- C3: `get` returns an exact match when present; on a miss it retries
with the namespace cleared (so a key without a namespace only ever
resolves exactly); an upserted cluster-scoped object is found through a
namespaced key of the same name, while a namespaced object is not found
through a cluster-scoped key. -/
theorem C3_lookup_contract {K : Type} (keyOf : K → ObjectRef) :
    (∀ (k : ObjectRef) (m : Cache K) (v : K),
      mapGet k m = some v → storeGet k m = some v)
    ∧ (∀ (k : ObjectRef) (m : Cache K),
      mapGet k m = none → storeGet k m = mapGet (clusterOf k) m)
    ∧ (∀ (k : ObjectRef) (m : Cache K),
      k.ns = none → storeGet k m = mapGet k m)
    ∧ (∀ (R : K) (nsv : String), (keyOf R).ns = none →
      storeGet ⟨(keyOf R).dyntype, (keyOf R).name, some nsv⟩
        (applyWatcherEvent keyOf (Event.applied R) (writerNew K)).store
        = some R)
    ∧ (∀ (R : K) (nsv : String), (keyOf R).ns = some nsv →
      storeGet ⟨(keyOf R).dyntype, (keyOf R).name, none⟩
        (applyWatcherEvent keyOf (Event.applied R) (writerNew K)).store
        = none) := by
  refine ⟨?_, ?_, ?_, ?_, ?_⟩
  · intro k m v h
    simp [storeGet, h]
  · intro k m h
    simp [storeGet, h]
  · intro k m h
    have hck : clusterOf k = k := by
      cases k with
      | mk dt n nso =>
        simp at h
        simp [clusterOf, h]
    cases hg : mapGet k m with
    | none => simp [storeGet, hg, hck]
    | some v => simp [storeGet, hg]
  · intro R nsv h
    rcases hkr : keyOf R with ⟨dt, n, nso⟩
    have hnso : nso = none := by
      have := h
      rw [hkr] at this
      exact this
    subst hnso
    simp [applyWatcherEvent, applyEventMap, writerNew, hkr, mapInsert,
      mapRemove, storeGet, mapGet, clusterOf]
  · intro R nsv h
    rcases hkr : keyOf R with ⟨dt, n, nso⟩
    have hnso : nso = some nsv := by
      have := h
      rw [hkr] at this
      exact this
    subst hnso
    simp [applyWatcherEvent, applyEventMap, writerNew, hkr, mapInsert,
      mapRemove, storeGet, mapGet, clusterOf]

/-- C3 witness: the four test scenarios of the source module, at concrete
ConfigMap-like objects. -/
theorem C3_lookup_contract_witness :
    storeGet (keyObj oNsd)
      (applyWatcherEvent keyObj (Event.applied oNsd)
        (writerNew KObj)).store = some oNsd
    ∧ storeGet ⟨"v1.ConfigMap", "obj", some "ns"⟩
      (applyWatcherEvent keyObj (Event.applied oCluster)
        (writerNew KObj)).store = some oCluster
    ∧ storeGet ⟨"v1.ConfigMap", "obj", none⟩
      (applyWatcherEvent keyObj (Event.applied oNsd)
        (writerNew KObj)).store = none :=
  ⟨(C3_lookup_contract keyObj).1 (keyObj oNsd) _ oNsd (by decide),
   (C3_lookup_contract keyObj).2.2.2.1 oCluster "ns" (by decide),
   (C3_lookup_contract keyObj).2.2.2.2 oNsd "ns" (by decide)⟩

/-- C2 counterexample: two listed resources with the same computed key
("obj", generations 1 and 2) collapse to a single entry after
`Restarted`, so the map does not hold one entry per element of the list
and `state()` does not return a snapshot for `oGenOne`. -/
theorem C2_counterexample :
    storeLen (applyWatcherEvent keyObj
        (Event.restarted [oGenOne, oGenTwo]) (writerNew KObj)).store = 1
    ∧ ([oGenOne, oGenTwo] : List KObj).length = 2
    ∧ oGenOne ∉ storeState (applyWatcherEvent keyObj
        (Event.restarted [oGenOne, oGenTwo]) (writerNew KObj)).store := by
  decide

/-- C2 (amended): provided the computed keys of the elements of `L` are
pairwise distinct, after `Restarted(L)` the map holds exactly one entry
per element of `L`, keyed by its computed key, and no other entries,
regardless of the prior contents `w`. -/
theorem C2_resync_atomicity {K : Type} (keyOf : K → ObjectRef)
    (L : List K) (w : WriterState K) (hd : (L.map keyOf).Nodup) :
    storeLen (applyWatcherEvent keyOf (Event.restarted L) w).store = L.length
    ∧ (∀ x ∈ L, mapGet (keyOf x)
        (applyWatcherEvent keyOf (Event.restarted L) w).store = some x)
    ∧ (∀ e ∈ (applyWatcherEvent keyOf (Event.restarted L) w).store,
        e.1 = keyOf e.2 ∧ e.2 ∈ L) := by
  refine ⟨?_, ?_, ?_⟩
  · exact length_restart_of_nodup keyOf L hd
  · intro x hx
    exact mapGet_restart_of_nodup keyOf L hd x hx
  · exact entries_restart keyOf L

/-- C2 witness: a resync with two distinctly keyed objects, applied over
a writer already holding an unrelated entry, leaves exactly two entries. -/
theorem C2_resync_atomicity_witness :
    storeLen (applyWatcherEvent keyObj
        (Event.restarted [oCluster, oTarget])
        (applyWatcherEvent keyObj (Event.applied oNsd)
          (writerNew KObj))).store = ([oCluster, oTarget] : List KObj).length :=
  (C2_resync_atomicity keyObj [oCluster, oTarget]
    (applyWatcherEvent keyObj (Event.applied oNsd) (writerNew KObj))
    (by decide)).1

/-- C10: when the `Restarted` list has duplicate computed keys, the
resulting map still has pairwise-distinct keys, holds exactly the keys of
the list, resolves each key to the latest listed occurrence (the last
match in reverse order), and `state()` is strictly shorter than the
list. -/
theorem C10_restart_duplicates {K : Type} (keyOf : K → ObjectRef)
    (L : List K) (w : WriterState K) (hdup : ¬ (L.map keyOf).Nodup) :
    ((applyWatcherEvent keyOf (Event.restarted L) w).store.map
      Prod.fst).Nodup
    ∧ (∀ j, j ∈ (applyWatcherEvent keyOf
        (Event.restarted L) w).store.map Prod.fst ↔ j ∈ L.map keyOf)
    ∧ (∀ j, mapGet j (applyWatcherEvent keyOf (Event.restarted L) w).store
        = List.find? (fun o => decide (keyOf o = j)) L.reverse)
    ∧ (storeState (applyWatcherEvent keyOf
        (Event.restarted L) w).store).length < L.length := by
  refine ⟨keys_nodup_restart keyOf L, mem_keys_restart keyOf L,
    mapGet_restart keyOf L, ?_⟩
  have : (storeState (restartMap keyOf L)).length
      = (restartMap keyOf L).length := List.length_map _ _
  rw [show (applyWatcherEvent keyOf (Event.restarted L) w).store
      = restartMap keyOf L from rfl, this]
  exact length_restart_lt_of_dup keyOf L hdup

/-- C10 witness: the duplicate-key resync of the C2 counterexample,
showing the later occurrence wins and the state shrinks. -/
theorem C10_restart_duplicates_witness :
    mapGet (keyObj oGenOne) (applyWatcherEvent keyObj
        (Event.restarted [oGenOne, oGenTwo]) (writerNew KObj)).store
      = List.find? (fun o => decide (keyObj o = keyObj oGenOne))
          ([oGenOne, oGenTwo] : List KObj).reverse
    ∧ (storeState (applyWatcherEvent keyObj
        (Event.restarted [oGenOne, oGenTwo]) (writerNew KObj)).store).length
      < ([oGenOne, oGenTwo] : List KObj).length :=
  ⟨(C10_restart_duplicates keyObj [oGenOne, oGenTwo] (writerNew KObj)
      (by decide)).2.2.1 (keyObj oGenOne),
   (C10_restart_duplicates keyObj [oGenOne, oGenTwo] (writerNew KObj)
      (by decide)).2.2.2⟩

/-- C4 counterexample: with a cluster-scoped "obj" already cached,
upserting then deleting the namespaced "obj" in "ns" leaves `get` at the
namespaced key resolving (via the namespace fallback) to the
cluster-scoped snapshot instead of returning absent. -/
theorem C4_counterexample :
    storeGet (keyObj oNsd)
      (applyWatcherEvent keyObj (Event.deleted oNsd)
        (applyWatcherEvent keyObj (Event.applied oNsd)
          (applyWatcherEvent keyObj (Event.applied oCluster)
            (writerNew KObj)))).store = some oCluster
    ∧ storeGet (keyObj oNsd)
      (applyWatcherEvent keyObj (Event.deleted oNsd)
        (applyWatcherEvent keyObj (Event.applied oNsd)
          (applyWatcherEvent keyObj (Event.applied oCluster)
            (writerNew KObj)))).store ≠ none := by
  decide

/-- C4 (amended): `Deleted(R)` after an upsert of R removes the exact
entry for R's key, so the raw map lookup is absent; `get` at that key is
then absent unless the namespace fallback finds a cluster-scoped entry of
the same name (in particular it is absent when the upsert happened on a
fresh store); deleting a key that is not present is a no-op that leaves
the map unchanged. -/
theorem C4_delete_then_get {K : Type} (keyOf : K → ObjectRef) (R : K)
    (w : WriterState K) :
    mapGet (keyOf R)
      (applyWatcherEvent keyOf (Event.deleted R)
        (applyWatcherEvent keyOf (Event.applied R) w)).store = none
    ∧ (mapGet (clusterOf (keyOf R))
        (applyWatcherEvent keyOf (Event.deleted R)
          (applyWatcherEvent keyOf (Event.applied R) w)).store = none →
      storeGet (keyOf R)
        (applyWatcherEvent keyOf (Event.deleted R)
          (applyWatcherEvent keyOf (Event.applied R) w)).store = none)
    ∧ storeGet (keyOf R)
        (applyWatcherEvent keyOf (Event.deleted R)
          (applyWatcherEvent keyOf (Event.applied R)
            (writerNew K))).store = none
    ∧ (∀ o : K, mapGet (keyOf o) w.store = none →
        (applyWatcherEvent keyOf (Event.deleted o) w).store = w.store) := by
  have h1 : mapGet (keyOf R)
      (applyWatcherEvent keyOf (Event.deleted R)
        (applyWatcherEvent keyOf (Event.applied R) w)).store = none :=
    mapGet_remove_self (keyOf R) _
  refine ⟨h1, ?_, ?_, ?_⟩
  · intro hc
    simp [storeGet, h1, hc]
  · have hempty : (applyWatcherEvent keyOf (Event.deleted R)
        (applyWatcherEvent keyOf (Event.applied R)
          (writerNew K))).store = [] := by
      simp [applyWatcherEvent, applyEventMap, writerNew, mapInsert,
        mapRemove]
    rw [hempty]
    simp [storeGet, mapGet]
  · intro o ho
    show mapRemove (keyOf o) w.store = w.store
    exact mapRemove_of_get_none (keyOf o) w.store ho

/-- C4 witness: delete-then-get on a fresh store is absent, and deleting
an absent key leaves the (empty) map unchanged. -/
theorem C4_delete_then_get_witness :
    storeGet (keyObj oNsd)
      (applyWatcherEvent keyObj (Event.deleted oNsd)
        (applyWatcherEvent keyObj (Event.applied oNsd)
          (writerNew KObj))).store = none
    ∧ (applyWatcherEvent keyObj (Event.deleted oCluster)
        (writerNew KObj)).store = (writerNew KObj).store :=
  ⟨(C4_delete_then_get keyObj oNsd (writerNew KObj)).2.2.1,
   (C4_delete_then_get keyObj oNsd (writerNew KObj)).2.2.2 oCluster
     (by decide)⟩

/-- C5: the first `apply_watcher_event` of any event kind takes the
readiness initializer and sets the gate, so `wait_until_ready` resolves
successfully even with no further applies; later applies no longer hold
the initializer and leave the gate set. -/
theorem C5_readiness_first_apply {K : Type} (keyOf : K → ObjectRef)
    (w : WriterState K) (e : Event K) (h : w.readyTx = true) :
    (applyWatcherEvent keyOf e w).gate = GateState.set
    ∧ (applyWatcherEvent keyOf e w).readyTx = false
    ∧ waitUntilReady (applyWatcherEvent keyOf e w).gate
      = some (Except.ok ())
    ∧ ∀ e' : Event K,
        (applyWatcherEvent keyOf e' (applyWatcherEvent keyOf e w)).gate
          = GateState.set := by
  refine ⟨?_, rfl, ?_, ?_⟩
  · simp [applyWatcherEvent, h]
  · simp [applyWatcherEvent, h, waitUntilReady]
  · intro e'
    simp [applyWatcherEvent, h]

/-- C5 witness: readiness is released by the first event on a fresh
writer, whichever variant it is. -/
theorem C5_readiness_first_apply_witness :
    waitUntilReady (applyWatcherEvent keyObj (Event.deleted oCluster)
      (writerNew KObj)).gate = some (Except.ok ()) :=
  (C5_readiness_first_apply keyObj (writerNew KObj)
    (Event.deleted oCluster) rfl).2.2.1

/-- C6: dropping a writer that still holds the initializer (no apply ever
happened) abandons the gate, making `wait_until_ready` resolve with the
`WriterDropped` error rather than staying pending; and an error outcome
of `wait_until_ready` occurs exactly in the abandoned gate state. -/
theorem C6_abandonment {K : Type} (w : WriterState K)
    (h : w.readyTx = true) :
    dropWriter w = GateState.abandoned
    ∧ waitUntilReady (dropWriter w)
      = some (Except.error (WriterDropped.mk InitDropped.mk))
    ∧ (∀ g : GateState,
        (∃ r, waitUntilReady g = some (Except.error r))
          ↔ g = GateState.abandoned) := by
  refine ⟨by simp [dropWriter, h], by simp [dropWriter, h, waitUntilReady],
    ?_⟩
  intro g
  cases g with
  | unset => simp [waitUntilReady]
  | set => simp [waitUntilReady]
  | abandoned =>
    simp only [waitUntilReady, iff_true]
    exact ⟨WriterDropped.mk InitDropped.mk, by trivial⟩

/-- C6 witness: dropping a fresh writer abandons the gate and resolves
`wait_until_ready` with the error. -/
theorem C6_abandonment_witness :
    dropWriter (writerNew KObj) = GateState.abandoned
    ∧ waitUntilReady (dropWriter (writerNew KObj))
      = some (Except.error (WriterDropped.mk InitDropped.mk)) :=
  ⟨(C6_abandonment (writerNew KObj) rfl).1,
   (C6_abandonment (writerNew KObj) rfl).2.1⟩

/-- C7: if exactly one entry's value satisfies the predicate (the values
filtered by it form the singleton `[v]`), `find` returns exactly `v`; if
no entry satisfies it, `find` returns absent. -/
theorem C7_find_unique {K : Type} (p : K → Bool) (m : Cache K) :
    (∀ v : K, (m.map Prod.snd).filter p = [v] → storeFind p m = some v)
    ∧ ((m.map Prod.snd).filter p = [] → storeFind p m = none) :=
  ⟨fun v h => find?_of_filter_singleton p (m.map Prod.snd) v h,
   fun h => find?_of_filter_nil p (m.map Prod.snd) h⟩

/-- C7 witness: the `find_element_in_store` scenario — among "obj" and
"obj1" only the latter has generation 1234 and is found; before it is
added nothing matches. -/
theorem C7_find_unique_witness :
    storeFind pGen
      (applyWatcherEvent keyObj (Event.applied oTarget)
        (applyWatcherEvent keyObj (Event.applied oCluster)
          (writerNew KObj))).store = some oTarget
    ∧ storeFind pGen
      (applyWatcherEvent keyObj (Event.applied oCluster)
        (writerNew KObj)).store = none :=
  ⟨(C7_find_unique pGen _).1 oTarget (by decide),
   (C7_find_unique pGen _).2 (by decide)⟩

/-- C8: on a reachable map (key-unique, which a fresh writer starts with
and every event preserves), `len` is zero exactly when `is_empty` holds,
and `len` tracks entries added minus removed: an upsert of an absent key
adds one, of a present key adds none, a delete of a present key removes
one, of an absent key removes none, and a resync leaves one entry per
distinct key of the list. -/
theorem C8_len_is_empty {K : Type} (keyOf : K → ObjectRef) (m : Cache K)
    (h : (m.map Prod.fst).Nodup) :
    (storeLen m = 0 ↔ storeIsEmpty m = true)
    ∧ (∀ (k : ObjectRef) (v : K), mapGet k m = none →
        storeLen (mapInsert k v m) = storeLen m + 1)
    ∧ (∀ (k : ObjectRef) (v v₀ : K), mapGet k m = some v₀ →
        storeLen (mapInsert k v m) = storeLen m)
    ∧ (∀ (k : ObjectRef) (v₀ : K), mapGet k m = some v₀ →
        storeLen (mapRemove k m) + 1 = storeLen m)
    ∧ (∀ k : ObjectRef, mapGet k m = none →
        storeLen (mapRemove k m) = storeLen m)
    ∧ (∀ L : List K,
        storeLen (restartMap keyOf L) = ((L.map keyOf).dedup).length)
    ∧ (((writerNew K).store.map Prod.fst).Nodup
        ∧ ∀ (e : Event K) (b : Bool) (g : GateState),
          (((applyWatcherEvent keyOf e ⟨m, b, g⟩).store).map
            Prod.fst).Nodup) := by
  refine ⟨?_, ?_, ?_, ?_, ?_, ?_, ?_, ?_⟩
  · constructor
    · intro hz
      cases m with
      | nil => rfl
      | cons e rest => simp [storeLen] at hz
    · intro he
      cases m with
      | nil => rfl
      | cons e rest => simp [storeIsEmpty] at he
  · intro k v hk
    exact length_insert_of_none k v m hk
  · intro k v v₀ hk
    exact length_insert_of_some k v v₀ m h hk
  · intro k v₀ hk
    exact length_remove_of_some k v₀ m h hk
  · intro k hk
    rw [show mapRemove k m = m from mapRemove_of_get_none k m hk]
  · intro L
    rw [show storeLen (restartMap keyOf L) = (restartMap keyOf L).length
        from rfl,
      length_restart_eq_card, List.card_toFinset]
  · simp [writerNew]
  · intro e b g
    cases e with
    | applied o => exact keys_nodup_insert (keyOf o) o m h
    | deleted o => exact keys_nodup_remove (keyOf o) m h
    | restarted L => exact keys_nodup_restart keyOf L

/-- C8 witness: the length bookkeeping at concrete stores. -/
theorem C8_len_is_empty_witness :
    (storeLen ((writerNew KObj).store) = 0
      ↔ storeIsEmpty ((writerNew KObj).store) = true)
    ∧ storeLen (mapInsert (keyObj oTarget) oTarget
        [(keyObj oCluster, oCluster)]) = 2
    ∧ storeLen (mapInsert (keyObj oGenTwo) oGenTwo
        [(keyObj oGenOne, oGenOne)]) = 1
    ∧ storeLen (mapRemove (keyObj oCluster)
        [(keyObj oCluster, oCluster)]) + 1 = 1 :=
  ⟨(C8_len_is_empty keyObj (writerNew KObj).store (by decide)).1,
   (C8_len_is_empty keyObj [(keyObj oCluster, oCluster)] (by decide)).2.1
     (keyObj oTarget) oTarget (by decide),
   (C8_len_is_empty keyObj [(keyObj oGenOne, oGenOne)] (by decide)).2.2.1
     (keyObj oGenTwo) oGenTwo oGenOne (by decide),
   (C8_len_is_empty keyObj [(keyObj oCluster, oCluster)]
     (by decide)).2.2.2.1 (keyObj oCluster) oCluster (by decide)⟩

/-- C9: event application is a total function with no error outcome —
deleting an absent key silently leaves the map unchanged and a duplicate
upsert silently overwrites — and the lookups `get` and `find` return
absent, never an error, when nothing matches. -/
theorem C9_infallible {K : Type} (keyOf : K → ObjectRef) :
    (∀ (k : ObjectRef) (m : Cache K), mapGet k m = none →
      mapGet (clusterOf k) m = none → storeGet k m = none)
    ∧ (∀ (p : K → Bool) (m : Cache K),
      (m.map Prod.snd).filter p = [] → storeFind p m = none)
    ∧ (∀ (o : K) (w : WriterState K), mapGet (keyOf o) w.store = none →
      (applyWatcherEvent keyOf (Event.deleted o) w).store = w.store)
    ∧ (∀ (o : K) (w : WriterState K),
      mapGet (keyOf o)
        (applyWatcherEvent keyOf (Event.applied o) w).store = some o) := by
  refine ⟨?_, ?_, ?_, ?_⟩
  · intro k m h hc
    simp [storeGet, h, hc]
  · intro p m h
    exact find?_of_filter_nil p (m.map Prod.snd) h
  · intro o w h
    exact mapRemove_of_get_none (keyOf o) w.store h
  · intro o w
    exact mapGet_insert_self (keyOf o) o w.store

/-- C9 witness: concrete no-match lookups return absent and a delete of
an absent key is silently ignored. -/
theorem C9_infallible_witness :
    storeGet (keyObj oTarget) [(keyObj oNsd, oNsd)] = none
    ∧ storeFind pGen [(keyObj oCluster, oCluster)] = none
    ∧ (applyWatcherEvent keyObj (Event.deleted oTarget)
        (applyWatcherEvent keyObj (Event.applied oNsd)
          (writerNew KObj))).store
      = (applyWatcherEvent keyObj (Event.applied oNsd)
          (writerNew KObj)).store :=
  ⟨(C9_infallible keyObj).1 (keyObj oTarget) [(keyObj oNsd, oNsd)]
     (by decide) (by decide),
   (C9_infallible keyObj).2.1 pGen [(keyObj oCluster, oCluster)]
     (by decide),
   (C9_infallible keyObj).2.2.1 oTarget
     (applyWatcherEvent keyObj (Event.applied oNsd) (writerNew KObj))
     (by decide)⟩
